import Mathlib

/-!
Verification of the chopper channel hopper (chopper.go) against its
natural-language specification.  The Go source is shallowly embedded:
pure functions (`channelToFrequency`, `parseChannelsString`) become Lean
functions, and the main hop loop becomes an explicit fuel-indexed step
function over the cursor state, with the transport and the termination
flag supplied as oracles indexed by tick number.
-/

namespace Chopper

/-- nl80211.ChanWidth20Noht (NL80211_CHAN_WIDTH_20_NOHT). -/
def chanWidth20Noht : Nat := 0

/-- nl80211.ChanHt20 (NL80211_CHAN_HT20). -/
def chanHt20 : Nat := 1

/-- Embedding of `channelToFrequency` (chopper.go lines 83-96).
Go `int` is 64-bit; no intermediate here can overflow it, so `Int` is a
faithful model. -/
def channelToFrequency (channel : Int) : Int :=
  if channel ≤ 0 then 0
  else if channel = 14 then 2484
  else if channel < 14 then 2407 + channel * 5
  else 0

/-- The character class kept by the regex replacement
`regexp.Compile("[^0-9,]+")` / `ReplaceAllString(input, "")`:
a character survives iff it is an ASCII digit or a comma. -/
def keepChar (c : Char) : Bool := c.isDigit || c = ','

/-- Numeric value of an ASCII digit character. -/
def digitVal (c : Char) : Nat := c.toNat - 48

/-- Value of an all-digit token, as `strconv.ParseInt` computes it
(base 10, most significant digit first). -/
def digitsToNat (tok : List Char) : Nat :=
  tok.foldl (fun acc c => 10 * acc + digitVal c) 0

/-- Embedding of Go `strings.Split(s, ",")` on the character list:
`Split("", ",") = [""]`, and each comma starts a new (possibly empty)
token. -/
def splitOnComma : List Char → List (List Char)
  | [] => [[]]
  | c :: cs =>
    if c = ',' then [] :: splitOnComma cs
    else
      match splitOnComma cs with
      | [] => [[c]]
      | t :: ts => (c :: t) :: ts

/-- Largest value accepted by `strconv.ParseInt(part, 10, 32)` for a
token with no sign: `math.MaxInt32 = 2^31 - 1`.  A larger value makes
`ParseInt` return an error (`ErrRange`). -/
def int32Max : Nat := 2 ^ 31 - 1

/-- The token loop of `parseChannelsString` (chopper.go lines 109-126):
skip empty tokens; a token whose value overflows 32 bits is a parse
failure that emits a warning and is skipped; values equal to zero are
skipped; surviving values are appended in order.  The second component
counts the warnings written to stderr. -/
def parseTokensAux : List (List Char) → List Int × Nat
  | [] => ([], 0)
  | tok :: rest =>
    let next := parseTokensAux rest
    if tok = [] then next
    else if int32Max < digitsToNat tok then (next.1, next.2 + 1)
    else if digitsToNat tok = 0 then next
    else ((digitsToNat tok : Int) :: next.1, next.2)

/-- Embedding of `parseChannelsString` (chopper.go lines 98-129) on a
character list: strip every character that is not a digit or comma,
split on commas, then run the token loop.  The regex always compiles,
so the Go error result is always nil and is not modelled. -/
def parseChannelsCore (input : List Char) : List Int × Nat :=
  parseTokensAux (splitOnComma (input.filter keepChar))

/-- `parseChannelsString` on a `String`: the resulting channel list. -/
def parseChannelsString (input : String) : List Int :=
  (parseChannelsCore input.data).1

/-- Number of parse warnings emitted while parsing `input`. -/
def parseWarnings (input : String) : Nat :=
  (parseChannelsCore input.data).2

/-- The built-in default channel sequence (chopper.go line 186). -/
def defaultChannels : List Int := [1, 8, 2, 9, 3, 10, 4, 11, 5, 12, 6, 13, 7]

/-- The channel list handed to the hop loop (chopper.go lines 184-187):
the parsed list, or the default sequence when the parsed list has
length ≤ 0. -/
def effectiveChannels (input : String) : List Int :=
  let channels := parseChannelsString input
  if channels.length ≤ 0 then defaultChannels else channels

/-- The radio command attributes marshalled on every tick
(chopper.go lines 215-235): interface index, target frequency,
channel width and channel type, each truncated to `uint32`. -/
structure Command where
  ifindex : Nat
  frequency : Nat
  channelWidth : Nat
  channelType : Nat
deriving DecidableEq, Repr

/-- Go conversion `uint32(x)` of a 64-bit signed value: reduction
modulo 2^32. -/
def uint32 (x : Int) : Nat := (x % (2 ^ 32 : Int)).toNat

/-- The command built for channel `ch` on an interface of index
`ifx` (chopper.go lines 215-235). -/
def buildCommand (ifx : Nat) (ch : Int) : Command :=
  { ifindex := ifx
  , frequency := uint32 (channelToFrequency ch)
  , channelWidth := chanWidth20Noht
  , channelType := chanHt20 }

/-- Cursor advance after a successful tick (chopper.go lines 257-261):
`idx++; if idx >= len(channels) { idx = 0 }`. -/
def nextIdx (idx len : Nat) : Nat :=
  if idx + 1 ≥ len then 0 else idx + 1

/-- How a run of the hop loop ends. -/
inductive LoopResult where
  /-- `os.Exit(1)` after reporting the failing channel; `idx` is the
  cursor value at the failing tick (never advanced). -/
  | exitFailure (channel : Int) (idx : Nat)
  /-- the `running` flag was observed false at a tick boundary. -/
  | stopped (idx : Nat)
  /-- simulation fuel exhausted while the loop was still running. -/
  | outOfFuel (idx : Nat)
deriving DecidableEq, Repr

/-- Process exit status produced by each loop outcome: a transport
failure exits with status 1; falling out of the loop returns from
`main` (no explicit exit). -/
def exitStatus : LoopResult → Option Nat
  | .exitFailure _ _ => some 1
  | _ => none

/-- Embedding of the hop loop (chopper.go lines 212-265).  `ok t` is
the transport's answer (`nlSocket.Execute` succeeds) at tick `t`;
`running t` is the value of the termination flag observed at the
boundary of tick `t`.  `fuel` bounds the number of simulated
boundary checks; the returned list is the sequence of submitted
commands, in order. -/
def runLoop (channels : List Int) (ifx : Nat) (ok running : Nat → Bool) :
    Nat → Nat → Nat → List Command × LoopResult
  | 0, idx, _ => ([], .outOfFuel idx)
  | fuel + 1, idx, tick =>
    if running tick then
      let cmd := buildCommand ifx (channels.getD idx 0)
      if ok tick then
        let rest := runLoop channels ifx ok running fuel
          (nextIdx idx channels.length) (tick + 1)
        (cmd :: rest.1, rest.2)
      else ([cmd], .exitFailure (channels.getD idx 0) idx)
    else ([], .stopped idx)

/-- Source of a delivered stop signal: an operator interrupt, or the
timeout timer's callback.  Both send `os.Interrupt` on the same `quit`
channel (chopper.go lines 160-165 and 179-181). -/
inductive StopSource where
  | operator
  | timer
deriving DecidableEq, Repr

/-- The handler body `running = false` run when a value is received on
`quit` (chopper.go lines 162-165): the update does not depend on the
current flag value or on which source delivered the signal. -/
def applyStopEvent (_running : Bool) (_e : StopSource) : Bool := false

/-- Value of the `running` flag after a sequence of delivered stop
events, starting from its initial value `true` (chopper.go line 38). -/
def runningAfter (events : List StopSource) : Bool :=
  events.foldl applyStopEvent true

/-- Result of the timeout wiring at startup: whether a one-shot timer
was armed (and for how many seconds) and whether a warning was
printed. -/
structure TimeoutConfig where
  timerSeconds : Option Nat
  warned : Bool
deriving DecidableEq, Repr

/-- Embedding of the timeout setup (chopper.go lines 175-183): only
when `--timeout` was explicitly passed, a non-positive value emits a
warning and arms nothing, while a positive value arms
`time.AfterFunc(timeout seconds)` whose callback sends the interrupt
value on `quit`. -/
def setupTimeout (passed : Bool) (timeout : Int) : TimeoutConfig :=
  if passed then
    if timeout ≤ 0 then { timerSeconds := none, warned := true }
    else { timerSeconds := some timeout.toNat, warned := false }
  else { timerSeconds := none, warned := false }

/-- The decimal digit character for a value 0-9. -/
def digitChar : Nat → Char
  | 0 => '0'
  | 1 => '1'
  | 2 => '2'
  | 3 => '3'
  | 4 => '4'
  | 5 => '5'
  | 6 => '6'
  | 7 => '7'
  | 8 => '8'
  | _ => '9'

/-- Decimal digits of `n`, most significant first: the decimal string
a channel number is rendered to. -/
def natToDigits (n : Nat) : List Char :=
  if _h : n < 10 then [digitChar n]
  else natToDigits (n / 10) ++ [digitChar (n % 10)]
termination_by n
decreasing_by
  exact Nat.div_lt_self (by omega) (by omega)

/-- Join a channel list into one comma-separated decimal string. -/
def joinChannels : List Int → List Char
  | [] => []
  | [v] => natToDigits v.toNat
  | v :: rest => natToDigits v.toNat ++ ',' :: joinChannels rest

/-- Stripping is idempotent: filtering twice with `keepChar` equals
filtering once. -/
lemma filter_keepChar_idem (l : List Char) :
    (l.filter keepChar).filter keepChar = l.filter keepChar := by
  simp [List.filter_filter]

/-- Unfolding of `runLoop` with no fuel left. -/
lemma runLoop_zero (channels : List Int) (ifx : Nat) (ok running : Nat → Bool)
    (idx tick : Nat) :
    runLoop channels ifx ok running 0 idx tick = ([], .outOfFuel idx) := rfl

/-- Unfolding of one `runLoop` step. -/
lemma runLoop_succ (channels : List Int) (ifx : Nat) (ok running : Nat → Bool)
    (fuel idx tick : Nat) :
    runLoop channels ifx ok running (fuel + 1) idx tick =
      if running tick then
        if ok tick then
          (buildCommand ifx (channels.getD idx 0) ::
              (runLoop channels ifx ok running fuel
                (nextIdx idx channels.length) (tick + 1)).1,
           (runLoop channels ifx ok running fuel
              (nextIdx idx channels.length) (tick + 1)).2)
        else ([buildCommand ifx (channels.getD idx 0)],
              .exitFailure (channels.getD idx 0) idx)
      else ([], .stopped idx) := rfl

/-- For an in-range cursor, the source's advance-and-wrap equals
increment modulo the list length. -/
lemma nextIdx_eq_mod (idx len : Nat) (h : idx < len) :
    nextIdx idx len = (idx + 1) % len := by
  unfold nextIdx
  by_cases h1 : idx + 1 ≥ len
  · have he : idx + 1 = len := by omega
    simp [h1, he]
  · have hlt : idx + 1 < len := by omega
    simp [h1, Nat.mod_eq_of_lt hlt]

lemma channelToFrequency_nonneg (c : Int) : 0 ≤ channelToFrequency c := by
  unfold channelToFrequency
  split_ifs <;> omega

lemma channelToFrequency_lt (c : Int) : channelToFrequency c < 2 ^ 32 := by
  have h32 : (2 : Int) ^ 32 = 4294967296 := by norm_num
  unfold channelToFrequency
  split_ifs <;> omega

/-- `uint32` is the identity on values already in range. -/
lemma uint32_eq_toNat (x : Int) (h0 : 0 ≤ x) (h1 : x < 2 ^ 32) :
    uint32 x = x.toNat := by
  unfold uint32
  rw [Int.emod_eq_of_lt h0 h1]

/-- The frequency attribute of every built command is exactly the
mapper's output (the `uint32` truncation never loses information on
the mapper's range). -/
lemma buildCommand_frequency (ifx : Nat) (ch : Int) :
    (buildCommand ifx ch).frequency = (channelToFrequency ch).toNat :=
  uint32_eq_toNat _ (channelToFrequency_nonneg ch) (channelToFrequency_lt ch)

/-- A run of `k` acknowledged ticks from an in-range cursor emits one
command per tick, with the cursor moving along `(idx + j) % len`, and
then continues from cursor `(idx + k) % len` at tick `tick + k`. -/
lemma runLoop_segment (channels : List Int) (ifx : Nat) (ok running : Nat → Bool)
    (k : Nat) :
    ∀ fuel idx tick, idx < channels.length →
      (∀ t, tick ≤ t → t < tick + k → running t = true ∧ ok t = true) →
      runLoop channels ifx ok running (k + fuel) idx tick =
        ((List.range k).map
            (fun j => buildCommand ifx
              (channels.getD ((idx + j) % channels.length) 0))
          ++ (runLoop channels ifx ok running fuel
                ((idx + k) % channels.length) (tick + k)).1,
         (runLoop channels ifx ok running fuel
            ((idx + k) % channels.length) (tick + k)).2) := by
  induction k with
  | zero =>
    intro fuel idx tick hidx _
    simp [Nat.mod_eq_of_lt hidx]
  | succ k ih =>
    intro fuel idx tick hidx hok
    have hshape : k + 1 + fuel = k + (fuel + 1) := by omega
    rw [hshape, ih (fuel + 1) idx tick hidx (fun t h1 h2 => hok t h1 (by omega))]
    have hlen : 0 < channels.length := by omega
    have hmod : (idx + k) % channels.length < channels.length := Nat.mod_lt _ hlen
    have hrun : running (tick + k) = true := (hok (tick + k) (by omega) (by omega)).1
    have hok1 : ok (tick + k) = true := (hok (tick + k) (by omega) (by omega)).2
    rw [runLoop_succ, hrun, hok1, nextIdx_eq_mod _ _ hmod, Nat.mod_add_mod]
    simp [List.range_succ, Nat.add_assoc]

/-- The flag fold reaches `false` as soon as the event list is
non-empty, from any starting value. -/
lemma foldl_applyStopEvent (es : List StopSource) (b : Bool) :
    es.foldl applyStopEvent b = if es = [] then b else false := by
  induction es generalizing b with
  | nil => simp
  | cons e es ih => simp [applyStopEvent, ih]

lemma int32Max_eq : int32Max = 2147483647 := by norm_num [int32Max]

lemma natToDigits_eq (n : Nat) :
    natToDigits n = if n < 10 then [digitChar n]
      else natToDigits (n / 10) ++ [digitChar (n % 10)] := by
  rw [natToDigits]
  split <;> rfl

lemma digitVal_digitChar : ∀ d : Nat, d < 10 → digitVal (digitChar d) = d := by decide

lemma isDigit_digitChar : ∀ d : Nat, d < 10 → (digitChar d).isDigit = true := by decide

lemma digitsToNat_append (xs : List Char) (c : Char) :
    digitsToNat (xs ++ [c]) = 10 * digitsToNat xs + digitVal c := by
  simp [digitsToNat, List.foldl_append]

/-- Reading back the decimal rendering of `n` recovers `n`. -/
lemma digitsToNat_natToDigits (n : Nat) : digitsToNat (natToDigits n) = n := by
  induction n using Nat.strong_induction_on with
  | _ n ih =>
    rw [natToDigits_eq]
    by_cases h : n < 10
    · simp [h, digitsToNat, digitVal_digitChar n h]
    · have hd : n / 10 < n := Nat.div_lt_self (by omega) (by omega)
      rw [if_neg h, digitsToNat_append, ih (n / 10) hd,
        digitVal_digitChar (n % 10) (Nat.mod_lt _ (by omega))]
      omega

lemma natToDigits_ne_nil (n : Nat) : natToDigits n ≠ [] := by
  rw [natToDigits_eq]
  split <;> simp

/-- Every character of a decimal rendering is an ASCII digit. -/
lemma isDigit_of_mem_natToDigits (n : Nat) :
    ∀ c ∈ natToDigits n, c.isDigit = true := by
  induction n using Nat.strong_induction_on with
  | _ n ih =>
    intro c hc
    rw [natToDigits_eq] at hc
    by_cases h : n < 10
    · rw [if_pos h] at hc
      simp only [List.mem_singleton] at hc
      exact hc ▸ isDigit_digitChar n h
    · rw [if_neg h] at hc
      rcases List.mem_append.mp hc with h1 | h1
      · exact ih (n / 10) (Nat.div_lt_self (by omega) (by omega)) c h1
      · simp only [List.mem_singleton] at h1
        exact h1 ▸ isDigit_digitChar (n % 10) (Nat.mod_lt _ (by omega))

lemma ne_comma_of_isDigit (c : Char) (h : c.isDigit = true) : c ≠ ',' := by
  intro hc
  rw [hc] at h
  simp [Char.isDigit] at h

lemma splitOnComma_ne_nil (l : List Char) : splitOnComma l ≠ [] := by
  cases l with
  | nil => simp [splitOnComma]
  | cons c cs =>
    simp only [splitOnComma]
    by_cases h : c = ','
    · simp [h]
    · simp only [h, if_false]
      cases splitOnComma cs <;> simp

/-- Prepending a comma-free chunk extends the first token of a
split. -/
lemma splitOnComma_append_nocomma (t s : List Char) (h0 : List Char)
    (hs : List (List Char)) (ht : ∀ c ∈ t, c ≠ ',')
    (heq : splitOnComma s = h0 :: hs) :
    splitOnComma (t ++ s) = (t ++ h0) :: hs := by
  induction t with
  | nil => simpa using heq
  | cons c cs ih =>
    have hc : c ≠ ',' := ht c (by simp)
    have ih2 := ih (fun x hx => ht x (by simp [hx]))
    rw [List.cons_append]
    simp only [splitOnComma, hc, if_false, ih2, List.cons_append]

/-- Splitting the comma-joined rendering of a non-empty channel list
recovers the rendered tokens. -/
lemma splitOnComma_joinChannels (out : List Int) (hne : out ≠ []) :
    splitOnComma (joinChannels out) =
      out.map (fun v => natToDigits v.toNat) := by
  induction out with
  | nil => exact absurd rfl hne
  | cons v rest ih =>
    have hdig : ∀ c ∈ natToDigits v.toNat, c ≠ ',' :=
      fun c hc => ne_comma_of_isDigit c (isDigit_of_mem_natToDigits _ c hc)
    cases rest with
    | nil =>
      have h := splitOnComma_append_nocomma (natToDigits v.toNat) [] [] [] hdig rfl
      simpa [joinChannels] using h
    | cons w rest2 =>
      have hsplit : splitOnComma (',' :: joinChannels (w :: rest2)) =
          [] :: splitOnComma (joinChannels (w :: rest2)) := by
        simp [splitOnComma]
      have h := splitOnComma_append_nocomma (natToDigits v.toNat)
        (',' :: joinChannels (w :: rest2)) []
        (splitOnComma (joinChannels (w :: rest2))) hdig hsplit
      rw [show joinChannels (v :: w :: rest2) =
            natToDigits v.toNat ++ ',' :: joinChannels (w :: rest2) from rfl, h,
        ih (by simp)]
      simp

/-- The rendering only produces digits and commas, so the strip phase
leaves it unchanged. -/
lemma filter_keepChar_joinChannels (out : List Int) :
    (joinChannels out).filter keepChar = joinChannels out := by
  rw [List.filter_eq_self]
  intro c hc
  induction out with
  | nil => simp [joinChannels] at hc
  | cons v rest ih =>
    cases rest with
    | nil =>
      simp only [joinChannels] at hc
      simp [keepChar, isDigit_of_mem_natToDigits _ c hc]
    | cons w rest2 =>
      rw [show joinChannels (v :: w :: rest2) =
            natToDigits v.toNat ++ ',' :: joinChannels (w :: rest2) from rfl] at hc
      rcases List.mem_append.mp hc with h1 | h1
      · simp [keepChar, isDigit_of_mem_natToDigits _ c h1]
      · rcases List.mem_cons.mp h1 with h2 | h2
        · simp [keepChar, h2]
        · exact ih h2

/-- Every channel the token loop keeps is strictly positive and fits
in 32 bits. -/
lemma parseTokensAux_mem_pos (toks : List (List Char)) :
    ∀ x ∈ (parseTokensAux toks).1, 0 < x ∧ x ≤ (int32Max : Int) := by
  induction toks with
  | nil => simp [parseTokensAux]
  | cons tok rest ih =>
    intro x hx
    by_cases h1 : tok = []
    · exact ih x (by simpa [parseTokensAux, h1] using hx)
    · by_cases h2 : int32Max < digitsToNat tok
      · exact ih x (by simpa [parseTokensAux, h1, h2] using hx)
      · by_cases h3 : digitsToNat tok = 0
        · exact ih x (by simpa [parseTokensAux, h1, h2, h3] using hx)
        · rcases List.mem_cons.mp
            (by simpa [parseTokensAux, h1, h2, h3] using hx) with h4 | h4
          · subst h4
            constructor <;> omega
          · exact ih x h4

/-- Re-parsing the rendered tokens of a positive, in-range channel
list yields the list back with no warnings. -/
lemma parseTokensAux_map_natToDigits (out : List Int)
    (hpos : ∀ x ∈ out, 0 < x) (hbound : ∀ x ∈ out, x ≤ (int32Max : Int)) :
    parseTokensAux (out.map (fun v => natToDigits v.toNat)) = (out, 0) := by
  induction out with
  | nil => rfl
  | cons v rest ih =>
    have hv : 0 < v := hpos v (by simp)
    have hb : v ≤ (int32Max : Int) := hbound v (by simp)
    have hvn : digitsToNat (natToDigits v.toNat) = v.toNat :=
      digitsToNat_natToDigits _
    have h1 : ¬ int32Max < digitsToNat (natToDigits v.toNat) := by
      rw [hvn]; omega
    have h3 : ¬ digitsToNat (natToDigits v.toNat) = 0 := by
      rw [hvn]; omega
    have hcast : ((digitsToNat (natToDigits v.toNat) : Nat) : Int) = v := by
      rw [hvn]; omega
    simp [parseTokensAux, natToDigits_ne_nil, h1, h3, hcast,
      ih (fun x hx => hpos x (by simp [hx])) (fun x hx => hbound x (by simp [hx]))]

/-- Claim C4: the Channel→Frequency Mapper is a pure total function on
integers: 0 for channel ≤ 0, 2484 for channel 14, 2407 + 5·c for
1 ≤ c < 14, and 0 for channel ≥ 15. -/
theorem C4_mapper (c : Int) :
    (c ≤ 0 → channelToFrequency c = 0)
    ∧ channelToFrequency 14 = 2484
    ∧ (1 ≤ c → c < 14 → channelToFrequency c = 2407 + 5 * c)
    ∧ (15 ≤ c → channelToFrequency c = 0) := by
  refine ⟨fun h => ?_, by decide, fun h1 h2 => ?_, fun h => ?_⟩
  · simp [channelToFrequency, h]
  · have hn : ¬ c ≤ 0 := by omega
    have hne : c ≠ 14 := by omega
    simp [channelToFrequency, hn, hne, h2]
    ring
  · have hn : ¬ c ≤ 0 := by omega
    have hne : c ≠ 14 := by omega
    have hge : ¬ c < 14 := by omega
    simp [channelToFrequency, hn, hne, hge]

/-- Concrete instances of C4_mapper with every hypothesis discharged. -/
theorem C4_mapper_witness :
    ((-1 : Int) ≤ 0 ∧ channelToFrequency (-1) = 0)
    ∧ ((1 : Int) ≤ 5 ∧ (5 : Int) < 14 ∧ channelToFrequency 5 = 2407 + 5 * 5)
    ∧ ((15 : Int) ≤ 15 ∧ channelToFrequency 15 = 0) :=
  ⟨⟨by decide, (C4_mapper (-1)).1 (by decide)⟩,
   ⟨by decide, by decide, (C4_mapper 5).2.2.1 (by decide) (by decide)⟩,
   ⟨by decide, (C4_mapper 15).2.2.2 (by decide)⟩⟩

/-- Claim C3: the Channel-List Parser strips every character that is
not an ASCII digit or comma preserving order, splits on commas, skips
empty and zero tokens, keeps duplicates in input order, and realizes
the nine documented example parses. -/
theorem C3_parse_cases :
    parseChannelsString "1,2,3" = [1, 2, 3]
    ∧ parseChannelsString "0" = []
    ∧ parseChannelsString "1,," = [1]
    ∧ parseChannelsString ",,3" = [3]
    ∧ parseChannelsString ",," = []
    ∧ parseChannelsString "asd1,2,3" = [1, 2, 3]
    ∧ parseChannelsString "1asd,2,3" = [1, 2, 3]
    ∧ parseChannelsString "1a,sd2,3" = [1, 2, 3]
    ∧ parseChannelsString "1 2 3" = [123]
    ∧ parseChannelsString "3,1,3" = [3, 1, 3]
    ∧ ∀ s : String,
        parseChannelsString s = parseChannelsString (String.mk (s.data.filter keepChar)) := by
  refine ⟨by decide, by decide, by decide, by decide, by decide, by decide,
    by decide, by decide, by decide, by decide, fun s => ?_⟩
  simp [parseChannelsString, parseChannelsCore, filter_keepChar_idem]

/-- Claim C5: an empty parse result (empty string, or every token
skipped) makes the hop loop use exactly the 13-element default
sequence; a non-empty parse result is used unchanged. -/
theorem C5_default_channels (input : String) :
    ((parseChannelsString input).length = 0 → effectiveChannels input = defaultChannels)
    ∧ (parseChannelsString input ≠ [] → effectiveChannels input = parseChannelsString input)
    ∧ defaultChannels = [1, 8, 2, 9, 3, 10, 4, 11, 5, 12, 6, 13, 7]
    ∧ defaultChannels.length = 13
    ∧ effectiveChannels "" = defaultChannels
    ∧ effectiveChannels "0,," = defaultChannels := by
  refine ⟨fun h => ?_, fun h => ?_, by decide, by decide, by decide, by decide⟩
  · simp [effectiveChannels, h]
  · have hlen : ¬ (parseChannelsString input).length ≤ 0 := by
      simpa [Nat.le_zero, List.length_eq_zero] using h
    simp [effectiveChannels, hlen]

/-- Concrete instances of C5_default_channels: the empty string falls
back to the default list, a parsable string is used unchanged. -/
theorem C5_default_channels_witness :
    ((parseChannelsString "").length = 0 ∧ effectiveChannels "" = defaultChannels)
    ∧ (parseChannelsString "1,2" ≠ [] ∧ effectiveChannels "1,2" = parseChannelsString "1,2") :=
  ⟨⟨by decide, (C5_default_channels "").1 (by decide)⟩,
   ⟨by decide, (C5_default_channels "1,2").2.1 (by decide)⟩⟩

/-- Claim C1: starting from cursor 0, a run of acknowledged ticks
emits at tick `t` exactly the command built for the channel at cursor
`t % len`; the cursor is always a valid index, starts at 0, advances
by one modulo the list length, the visited-cursor sequence is periodic
with period `len`, and each emitted frequency is the Mapper applied to
the channel at the cursor. -/
theorem C1_hop_cursor (channels : List Int) (ifx : Nat) (ok running : Nat → Bool)
    (n fuel : Nat) (hne : channels ≠ [])
    (hok : ∀ t, ok t = true) (hrun : ∀ t, running t = true) :
    runLoop channels ifx ok running (n + fuel) 0 0 =
      ((List.range n).map
          (fun t => buildCommand ifx (channels.getD (t % channels.length) 0))
        ++ (runLoop channels ifx ok running fuel (n % channels.length) n).1,
       (runLoop channels ifx ok running fuel (n % channels.length) n).2)
    ∧ (∀ t : Nat, t % channels.length < channels.length)
    ∧ (0 : Nat) % channels.length = 0
    ∧ (∀ t : Nat, (t + 1) % channels.length = (t % channels.length + 1) % channels.length)
    ∧ (∀ t : Nat, (t + channels.length) % channels.length = t % channels.length)
    ∧ (∀ ch : Int, (buildCommand ifx ch).frequency = (channelToFrequency ch).toNat) := by
  have hlen : 0 < channels.length := List.length_pos.mpr hne
  refine ⟨?_, fun t => Nat.mod_lt _ hlen, Nat.zero_mod _,
    fun t => (Nat.mod_add_mod t channels.length 1).symm, fun t => Nat.add_mod_right t _,
    fun ch => buildCommand_frequency ifx ch⟩
  have h := runLoop_segment channels ifx ok running n fuel 0 0 hlen
    (fun t _ _ => ⟨hrun t, hok t⟩)
  simpa using h

/-- Concrete instance of C1_hop_cursor: channels [6, 11], two
acknowledged ticks from cursor 0 emit the frequencies of channels 6
and 11 and leave the cursor back at 0. -/
theorem C1_hop_cursor_witness :
    ([6, 11] : List Int) ≠ []
    ∧ runLoop [6, 11] 4 (fun _ => true) (fun _ => true) (2 + 0) 0 0 =
      ((List.range 2).map
          (fun t => buildCommand 4 (([6, 11] : List Int).getD (t % 2) 0))
        ++ (runLoop [6, 11] 4 (fun _ => true) (fun _ => true) 0 (2 % 2) 2).1,
       (runLoop [6, 11] 4 (fun _ => true) (fun _ => true) 0 (2 % 2) 2).2) :=
  ⟨by decide,
   (C1_hop_cursor [6, 11] 4 (fun _ => true) (fun _ => true) 2 0 (by decide)
      (fun _ => rfl) (fun _ => rfl)).1⟩

/-- Claim C2, counterexample: with the single-channel list [15]
(channel 15 maps to frequency 0) and a transport that acknowledges
every command, the Driver submits commands carrying frequency 0 on
consecutive ticks and keeps running — the hop is neither skipped nor
failed by the program itself. -/
theorem C2_zero_freq_counterexample :
    channelToFrequency 15 = 0
    ∧ ((runLoop [15] 3 (fun _ => true) (fun _ => true) 2 0 0).1.map
        Command.frequency) = [0, 0]
    ∧ (runLoop [15] 3 (fun _ => true) (fun _ => true) 2 0 0).2 =
        LoopResult.outOfFuel 0 := by
  refine ⟨by decide, by decide, by decide⟩

/-- Claim C2 as amended: the Driver performs no frequency-validity
check at all: on every running tick it submits the command whose
frequency attribute is exactly the Mapper's output for the current
channel — 0 included, when the channel is invalid — and on transport
acknowledgment it advances and continues. -/
theorem C2_zero_freq_amended (channels : List Int) (ifx : Nat)
    (ok running : Nat → Bool) (fuel idx tick : Nat)
    (hrun : running tick = true) (hok : ok tick = true) :
    runLoop channels ifx ok running (fuel + 1) idx tick =
      (buildCommand ifx (channels.getD idx 0) ::
          (runLoop channels ifx ok running fuel
            (nextIdx idx channels.length) (tick + 1)).1,
       (runLoop channels ifx ok running fuel
          (nextIdx idx channels.length) (tick + 1)).2)
    ∧ (buildCommand ifx (channels.getD idx 0)).frequency =
        uint32 (channelToFrequency (channels.getD idx 0)) := by
  rw [runLoop_succ, hrun, hok]
  exact ⟨by simp, rfl⟩

/-- Concrete instance of C2_zero_freq_amended at channel 15: the
submitted command carries frequency 0. -/
theorem C2_zero_freq_amended_witness :
    ((fun _ : Nat => true) 0 = true)
    ∧ runLoop [15] 4 (fun _ => true) (fun _ => true) (0 + 1) 0 0 =
        (buildCommand 4 15 ::
            (runLoop [15] 4 (fun _ => true) (fun _ => true) 0 (nextIdx 0 1) 1).1,
         (runLoop [15] 4 (fun _ => true) (fun _ => true) 0 (nextIdx 0 1) 1).2)
    ∧ (buildCommand 4 15).frequency = 0 :=
  ⟨rfl,
   (C2_zero_freq_amended [15] 4 (fun _ => true) (fun _ => true) 0 0 0 rfl rfl).1,
   by decide⟩

/-- Claim C6: if the transport acknowledges ticks 0..T-1 and fails at
tick T while the flag stays up, the whole run consists of exactly
T + 1 submitted commands, ends in `exitFailure` reporting the channel
at cursor T % len with the cursor not advanced past it, no later tick
runs, and the process exit status is the non-zero 1. -/
theorem C6_transport_failure (channels : List Int) (ifx : Nat)
    (ok running : Nat → Bool) (T fuel : Nat) (hne : channels ≠ [])
    (hok : ∀ t, t < T → ok t = true) (hfail : ok T = false)
    (hrun : ∀ t, t ≤ T → running t = true) :
    runLoop channels ifx ok running (T + 1 + fuel) 0 0 =
      ((List.range (T + 1)).map
          (fun t => buildCommand ifx (channels.getD (t % channels.length) 0)),
       LoopResult.exitFailure (channels.getD (T % channels.length) 0)
         (T % channels.length))
    ∧ ((List.range (T + 1)).map
          (fun t => buildCommand ifx (channels.getD (t % channels.length) 0))).length
        = T + 1
    ∧ exitStatus (LoopResult.exitFailure (channels.getD (T % channels.length) 0)
        (T % channels.length)) = some 1 := by
  have hlen : 0 < channels.length := List.length_pos.mpr hne
  refine ⟨?_, by simp, rfl⟩
  have hshape : T + 1 + fuel = T + (fuel + 1) := by omega
  rw [hshape, runLoop_segment channels ifx ok running T (fuel + 1) 0 0 hlen
    (fun t h1 h2 => ⟨hrun t (by omega), hok t (by omega)⟩)]
  simp only [Nat.zero_add]
  rw [runLoop_succ, hrun T (by omega), hfail]
  simp [List.range_succ]

/-- Concrete instance of C6_transport_failure: channels [1, 2], the
transport fails at tick 2; three commands were submitted, the run
reports channel 1 (cursor 0) and exits with status 1. -/
theorem C6_transport_failure_witness :
    ([1, 2] : List Int) ≠ []
    ∧ runLoop [1, 2] 4 (fun t => decide (t < 2)) (fun _ => true) (2 + 1 + 0) 0 0 =
      ((List.range 3).map
          (fun t => buildCommand 4 (([1, 2] : List Int).getD (t % 2) 0)),
       LoopResult.exitFailure 1 0) :=
  ⟨by decide,
   (C6_transport_failure [1, 2] 4 (fun t => decide (t < 2)) (fun _ => true) 2 0
      (by decide) (fun t ht => by simp [ht]) (by decide)
      (fun t _ => rfl)).1⟩

/-- Claim C7: any delivered stop event (interrupt or timer) makes the
flag false; once false the flag never returns to true under further
events; a second event changes nothing observable; and a Driver that
observes the flag false at a tick boundary submits nothing further and
stops with the cursor unchanged. -/
theorem C7_termination_flag (es es2 : List StopSource) (e e2 : StopSource)
    (channels : List Int) (ifx : Nat) (ok running : Nat → Bool)
    (fuel idx tick : Nat) :
    runningAfter (es ++ [e]) = false
    ∧ (runningAfter es = false → runningAfter (es ++ es2) = false)
    ∧ runningAfter (es ++ [e, e2]) = runningAfter (es ++ [e])
    ∧ (running tick = false →
        runLoop channels ifx ok running (fuel + 1) idx tick =
          ([], LoopResult.stopped idx)) := by
  refine ⟨?_, fun h => ?_, ?_, fun h => ?_⟩
  · simp [runningAfter, foldl_applyStopEvent, applyStopEvent]
  · rcases es2 with _ | ⟨e3, es3⟩
    · simpa using h
    · simp [runningAfter, foldl_applyStopEvent, applyStopEvent]
  · simp [runningAfter, foldl_applyStopEvent, applyStopEvent]
  · rw [runLoop_succ, h]
    simp

/-- Concrete instance of C7_termination_flag: one operator interrupt
followed by a timer event leaves the flag false, and a loop whose flag
is already false at tick 0 stops at once with the cursor unchanged. -/
theorem C7_termination_flag_witness :
    (runningAfter [StopSource.operator] = false
      ∧ runningAfter ([StopSource.operator] ++ [StopSource.timer]) = false)
    ∧ ((fun _ : Nat => false) 0 = false
      ∧ runLoop [1] 4 (fun _ => true) (fun _ => false) (0 + 1) 5 0 =
          ([], LoopResult.stopped 5)) :=
  ⟨⟨by decide,
    (C7_termination_flag [StopSource.operator] [StopSource.timer]
      StopSource.operator StopSource.timer [1] 4 (fun _ => true)
      (fun _ => false) 0 5 0).2.1 (by decide)⟩,
   ⟨rfl,
    (C7_termination_flag [StopSource.operator] [StopSource.timer]
      StopSource.operator StopSource.timer [1] 4 (fun _ => true)
      (fun _ => false) 0 5 0).2.2.2 rfl⟩⟩

/-- Claim C9: an explicitly passed timeout of zero or less arms no
timer and only records a warning, leaving the flag true so the program
runs until interrupted; a positive timeout arms a one-shot timer for
that many seconds whose firing goes through the same flag update as an
operator interrupt. -/
theorem C9_timeout_config (passed : Bool) (t : Int) :
    (passed = true → t ≤ 0 →
      setupTimeout passed t = { timerSeconds := none, warned := true }
      ∧ runningAfter [] = true)
    ∧ (passed = true → 0 < t →
      setupTimeout passed t = { timerSeconds := some t.toNat, warned := false }
      ∧ ∀ r : Bool, applyStopEvent r StopSource.timer =
          applyStopEvent r StopSource.operator) := by
  refine ⟨fun hp h => ⟨?_, rfl⟩, fun hp h => ⟨?_, fun r => rfl⟩⟩
  · simp [setupTimeout, hp, h]
  · have hn : ¬ t ≤ 0 := by omega
    simp [setupTimeout, hp, hn]

/-- Concrete instances of C9_timeout_config at timeout 0 (disabled
with a warning) and timeout 5 (timer armed for 5 seconds). -/
theorem C9_timeout_config_witness :
    ((0 : Int) ≤ 0
      ∧ setupTimeout true 0 = { timerSeconds := none, warned := true }
      ∧ runningAfter [] = true)
    ∧ ((0 : Int) < 5
      ∧ setupTimeout true 5 = { timerSeconds := some 5, warned := false }) :=
  ⟨⟨by decide, (C9_timeout_config true 0).1 rfl (by decide)⟩,
   ⟨by decide, ((C9_timeout_config true 5).2 rfl (by decide)).1⟩⟩

/-- Claim C8: a token whose digits overflow the accepted 32-bit width
is a parse failure: it adds one warning and no channel, while every
surrounding token is still processed; the parse is total.  Concretely,
2147483648 (2^31) is skipped with a warning while 2147483647 is
accepted. -/
theorem C8_overflow_token (l r : List (List Char)) (tok : List Char)
    (hover : int32Max < digitsToNat tok) :
    parseTokensAux (l ++ tok :: r) =
      ((parseTokensAux (l ++ r)).1, (parseTokensAux (l ++ r)).2 + 1)
    ∧ (∀ input : List Char,
        parseChannelsCore input = parseTokensAux (splitOnComma (input.filter keepChar)))
    ∧ parseChannelsString "1,2147483648,3" = [1, 3]
    ∧ parseWarnings "1,2147483648,3" = 1
    ∧ parseChannelsString "2147483647" = [2147483647]
    ∧ parseWarnings "2147483647" = 0 := by
  refine ⟨?_, fun input => rfl, by decide, by decide, by decide, by decide⟩
  induction l with
  | nil =>
    have hne : tok ≠ [] := by
      intro hnil
      rw [hnil] at hover
      simp [digitsToNat, int32Max] at hover
    simp [parseTokensAux, hne, hover]
  | cons t l ih =>
    simp only [List.cons_append, parseTokensAux, ih]
    by_cases h1 : t = [] <;> by_cases h2 : int32Max < digitsToNat t <;>
      by_cases h3 : digitsToNat t = 0 <;> simp [h1, h2, h3, ih]

/-- Concrete instance of C8_overflow_token: the token 2147483648
between tokens 1 and 3 is dropped and adds exactly one warning. -/
theorem C8_overflow_token_witness :
    int32Max < digitsToNat ['2', '1', '4', '7', '4', '8', '3', '6', '4', '8']
    ∧ parseTokensAux
        ([['1']] ++ ['2', '1', '4', '7', '4', '8', '3', '6', '4', '8'] :: [['3']]) =
      ((parseTokensAux ([['1']] ++ [['3']])).1,
       (parseTokensAux ([['1']] ++ [['3']])).2 + 1) :=
  ⟨by decide,
   (C8_overflow_token [['1']] [['3']]
      ['2', '1', '4', '7', '4', '8', '3', '6', '4', '8'] (by decide)).1⟩

/-- Claim C10: every channel the parser outputs is strictly positive
(minus signs are stripped and zeros skipped), and the parser
round-trips on its own output: rendering the output as comma-joined
decimal strings and re-parsing returns the same list. -/
theorem C10_parse_roundtrip (input : String) :
    (∀ x ∈ parseChannelsString input, 0 < x)
    ∧ parseChannelsString (String.mk (joinChannels (parseChannelsString input))) =
        parseChannelsString input := by
  have hmem : ∀ x ∈ parseChannelsString input, 0 < x ∧ x ≤ (int32Max : Int) :=
    fun x hx => parseTokensAux_mem_pos _ x hx
  refine ⟨fun x hx => (hmem x hx).1, ?_⟩
  by_cases hnil : parseChannelsString input = []
  · rw [hnil]
    rfl
  · show (parseTokensAux (splitOnComma
        ((joinChannels (parseChannelsString input)).filter keepChar))).1 =
      parseChannelsString input
    rw [filter_keepChar_joinChannels,
      splitOnComma_joinChannels (parseChannelsString input) hnil,
      parseTokensAux_map_natToDigits (parseChannelsString input)
        (fun x hx => (hmem x hx).1) (fun x hx => (hmem x hx).2)]

end Chopper
